import Mathlib

/-! # daolictl: the command dispatcher of `cli/cli.go`

A shallow embedding of `Cli.command`, `Cli.Run`, `Cli.noSuchCommand`,
`Cli.CmdHelp`, `initErr.Error` and `Subcmd`, followed by the properties of the
dispatcher and of the usage text.

Modelling conventions.

* A Go `string` is its sequence of bytes (`GoString`); `len`, `s[:1]` and
  `s[1:]` are byte operations, as in Go.
* The handler is a non-nil object whose `Cmd...` methods have the signature
  `func(...string) error` (the contract written on `Handler` in `cli.go`), so
  the type assertion at the end of `command` succeeds.  `MethodByName` is the
  handler's method table; the optional `Initializer` interface is an optional
  field.
* Handler code, the usage functions and `flag.Usage` are external: each acts
  on an abstract world `W` and either returns or never gives control back
  (`os.Exit`, a panic, divergence).
* Every call the dispatcher itself makes is recorded, in order, in a trace of
  `Event`s next to the world, so that "is invoked exactly once with these
  arguments" and "before" are statements about that trace.
* The usage callback that `Subcmd` installs is the list of its steps: each
  `fmt.Fprintf` to `os.Stdout` with the text it prints, then
  `flags.PrintDefaults()`.
-/

namespace Daolictl

/-! ## Strings -/

/-- A Go string: its bytes, each a value below 256. -/
abbrev GoString := List Nat

/-- The UTF-8 bytes of one character. -/
def utf8 (c : Char) : List Nat := (String.utf8EncodeChar c).map UInt8.toNat

/-- The Go string denoted by a string literal (its UTF-8 encoding). -/
def str (s : String) : GoString := s.toList.flatMap utf8

/-- The test `c < utf8.RuneSelf` on every byte, as `strings.ToUpper` and
`strings.ToLower` perform it before taking their byte-wise path. -/
def isASCII (s : GoString) : Bool := s.all fun c => decide (c < 128)

/-- Byte-wise upper-casing: `if 'a' <= c && c <= 'z' { c -= 'a' - 'A' }`. -/
def upperByte (c : Nat) : Nat := if 97 ≤ c ∧ c ≤ 122 then c - 32 else c

/-- Byte-wise lower-casing: `if 'A' <= c && c <= 'Z' { c += 'a' - 'A' }`. -/
def lowerByte (c : Nat) : Nat := if 65 ≤ c ∧ c ≤ 90 then c + 32 else c

/-! ## The world outside the dispatcher -/

/-- The outcome of a call into external code: it returns a value and leaves a
new world, or it never returns (`os.Exit`, panic, divergence). -/
inductive Ext (W α : Type) where
  | ret (a : α) (w : W)
  | stop (w : W)
  deriving DecidableEq, Repr

/-- What the dispatcher takes from the Go standard library: the Unicode case
mappings `strings.Map(unicode.ToUpper, s)` and `strings.Map(unicode.ToLower, s)`
used on strings that are not pure ASCII, and the package variable
`flag.Usage`. -/
structure Env (W : Type) where
  mapUpper : GoString → GoString
  mapLower : GoString → GoString
  flagUsage : W → Ext W Unit

/-- The function `strings.ToUpper`: byte-wise on ASCII strings, the Unicode
mapping otherwise. -/
def ToUpper {W : Type} (env : Env W) (s : GoString) : GoString :=
  if isASCII s then s.map upperByte else env.mapUpper s

/-- The function `strings.ToLower`: byte-wise on ASCII strings, the Unicode
mapping otherwise. -/
def ToLower {W : Type} (env : Env W) (s : GoString) : GoString :=
  if isASCII s then s.map lowerByte else env.mapLower s

/-- An `io.Writer` the dispatcher can print to: `os.Stderr` or a writer
installed in `Cli.Stderr`. -/
inductive Writer where
  | osStderr
  | custom (id : Nat)
  deriving DecidableEq, Repr

/-- The calls made by the dispatcher, in the order it makes them. -/
inductive Event where
  /-- The call `c.Initialize()` of `command`. -/
  | init
  /-- A resolved method called with these arguments. -/
  | invoke (method : GoString) (args : List GoString)
  /-- One `fmt.Fprintf` of `msg` to the writer. -/
  | fprintf (w : Writer) (msg : GoString)
  /-- The top-level usage function: `cli.Usage()` when `configured`,
  `flag.Usage()` otherwise. -/
  | usage (configured : Bool)
  deriving DecidableEq, Repr

/-- The state threaded through the dispatcher: the external world and the
trace of calls made so far. -/
structure St (W : Type) where
  world : W
  trace : List Event
  deriving DecidableEq, Repr

/-- The outcome of running dispatcher code: it returns `a`, or the process
ends in `os.Exit(code)`, or external code it called never returned. -/
inductive Res (W α : Type) where
  | ret (a : α) (s : St W)
  | exit (code : Int) (s : St W)
  | stop (s : St W)
  deriving DecidableEq, Repr

/-- Sequencing: the continuation runs only when the first part returns. -/
def Res.bind {W α β : Type} (r : Res W α) (k : α → St W → Res W β) : Res W β :=
  match r with
  | Res.ret a s => k a s
  | Res.exit code s => Res.exit code s
  | Res.stop s => Res.stop s

/-- The state in which an outcome leaves the process. -/
def Res.st {W α : Type} : Res W α → St W
  | Res.ret _ s => s
  | Res.exit _ s => s
  | Res.stop s => s

/-- A call into external code, recorded in the trace as `ev`. -/
def call {W α : Type} (s : St W) (ev : Event) (f : W → Ext W α) : Res W α :=
  match f s.world with
  | Ext.ret a w => Res.ret a ⟨w, s.trace ++ [ev]⟩
  | Ext.stop w => Res.stop ⟨w, s.trace ++ [ev]⟩

/-! ## Handler and Cli -/

/-- A handler: `MethodByName` is its method table (each `Cmd...` method a
`func(...string) error`, `none` standing for the `nil` error), `Initialize`
is present when the handler implements `Initializer`. -/
structure Handler (W ε : Type) where
  MethodByName : GoString → Option (List GoString → W → Ext W (Option ε))
  Initialize : Option (W → Ext W (Option ε))

/-- A method value bound by `command`: the name it was looked up under and the
function behind it. -/
structure Method (W ε : Type) where
  name : GoString
  fn : List GoString → W → Ext W (Option ε)

/-- The struct `Cli`. -/
structure Cli (W ε : Type) where
  Stderr : Option Writer
  handler : Handler W ε
  Usage : Option (W → Ext W Unit)

/-- The errors `command` returns: an `errors.New(msg)` or the wrapper
`initErr{err}`; the type switches of `Run` and `CmdHelp` tell them apart. -/
inductive GoErr (ε : Type) where
  | errorString (msg : GoString)
  | initErr (err : ε)
  deriving DecidableEq, Repr

/-! ## `Cli.command` -/

/-- The loop of `command`: each token, in order, must be non-empty and is
turned into `strings.ToUpper(s[:1]) + strings.ToLower(s[1:])`; `none` is the
early `return nil, errors.New("empty command")`. -/
def camelArgs {W : Type} (env : Env W) : List GoString → Option (List GoString)
  | [] => some []
  | s :: rest =>
    if s.length = 0 then none
    else (camelArgs env rest).map fun cs => (ToUpper env (s.take 1) ++ ToLower env (s.drop 1)) :: cs

/-- The name `command` looks up: `"Cmd" + strings.Join(camelArgs, "")`. -/
def methodName (camel : List GoString) : GoString := str "Cmd" ++ camel.flatten

/-- The method `Cli.command`. -/
def command {W ε : Type} (env : Env W) (cli : Cli W ε) (args : List GoString) (s : St W) :
    Res W (Except (GoErr ε) (Method W ε)) :=
  match camelArgs env args with
  | none => Res.ret (Except.error (GoErr.errorString (str "empty command"))) s
  | some camel =>
    match cli.handler.MethodByName (methodName camel) with
    | some fn =>
      match cli.handler.Initialize with
      | some ini =>
        (call s Event.init ini).bind fun err s1 =>
          match err with
          | some e => Res.ret (Except.error (GoErr.initErr e)) s1
          | none => Res.ret (Except.ok ⟨methodName camel, fn⟩) s1
      | none => Res.ret (Except.ok ⟨methodName camel, fn⟩) s
    | none => Res.ret (Except.error (GoErr.errorString (str "command not found"))) s

/-! ## `Cli.noSuchCommand`, `Cli.CmdHelp`, `Cli.Run` -/

/-- The call of a resolved method `cmd(args...)`. -/
def invoke {W ε : Type} (cmd : Method W ε) (args : List GoString) (s : St W) : Res W (Option ε) :=
  call s (Event.invoke cmd.name args) (cmd.fn args)

/-- The text `noSuchCommand` prints for `command`. -/
def noSuchCommandMsg (command : GoString) : GoString :=
  str "daolictl: \x27" ++ command ++ str "\x27 is not a daolictl command.\nSee \x27daolictl --help\x27.\n"

/-- The method `Cli.noSuchCommand`: one `Fprintf` to `cli.Stderr` (`os.Stderr`
when that field is nil), then `os.Exit(1)`.  The assignment
`cli.Stderr = os.Stderr` is not kept: the process ends before the field can
be read again. -/
def noSuchCommand {W ε : Type} (cli : Cli W ε) (command : GoString) (s : St W) : Res W Unit :=
  let w := match cli.Stderr with
    | none => Writer.osStderr
    | some w => w
  Res.exit 1 ⟨s.world, s.trace ++ [Event.fprintf w (noSuchCommandMsg command)]⟩

/-- The tail of `CmdHelp`: `flag.Usage()` when `cli.Usage` is nil, `cli.Usage()`
otherwise, then `return nil`. -/
def topUsage {W ε : Type} (env : Env W) (cli : Cli W ε) (s : St W) : Res W (Option ε) :=
  match cli.Usage with
  | none => (call s (Event.usage false) env.flagUsage).bind fun _ s1 => Res.ret none s1
  | some u => (call s (Event.usage true) u).bind fun _ s1 => Res.ret none s1

/-- The block `if len(args) > 0 { ... }` of `CmdHelp` and what follows it. -/
def helpOne {W ε : Type} (env : Env W) (cli : Cli W ε) (args : List GoString) (s : St W) :
    Res W (Option ε) :=
  match args with
  | a0 :: _ =>
    (command env cli [a0] s).bind fun r s1 =>
      match r with
      | Except.ok cmd => (invoke cmd [str "--help"] s1).bind fun _ s2 => Res.ret none s2
      | Except.error (GoErr.initErr e) => Res.ret (some e) s1
      | Except.error (GoErr.errorString _) =>
        (noSuchCommand cli a0 s1).bind fun _ s2 => topUsage env cli s2
  | [] => topUsage env cli s

/-- The method `Cli.CmdHelp`. -/
def CmdHelp {W ε : Type} (env : Env W) (cli : Cli W ε) (args : List GoString) (s : St W) :
    Res W (Option ε) :=
  if args.length > 1 then
    (command env cli (args.take 2) s).bind fun r s1 =>
      match r with
      | Except.ok cmd => (invoke cmd [str "--help"] s1).bind fun _ s2 => Res.ret none s2
      | Except.error (GoErr.initErr e) => Res.ret (some e) s1
      | Except.error (GoErr.errorString _) => helpOne env cli args s1
  else helpOne env cli args s

/-- The block `if len(args) > 0 { ... }` of `Run` and the final
`return cli.CmdHelp()`. -/
def runOne {W ε : Type} (env : Env W) (cli : Cli W ε) (args : List GoString) (s : St W) :
    Res W (Option ε) :=
  match args with
  | a0 :: rest =>
    (command env cli [a0] s).bind fun r s1 =>
      match r with
      | Except.ok cmd => invoke cmd rest s1
      | Except.error (GoErr.initErr e) => Res.ret (some e) s1
      | Except.error (GoErr.errorString _) =>
        (noSuchCommand cli a0 s1).bind fun _ s2 => CmdHelp env cli [] s2
  | [] => CmdHelp env cli [] s

/-- The method `Cli.Run`. -/
def Run {W ε : Type} (env : Env W) (cli : Cli W ε) (args : List GoString) (s : St W) :
    Res W (Option ε) :=
  if args.length > 1 then
    (command env cli (args.take 2) s).bind fun r s1 =>
      match r with
      | Except.ok cmd => invoke cmd (args.drop 2) s1
      | Except.error (GoErr.initErr e) => Res.ret (some e) s1
      | Except.error (GoErr.errorString _) => runOne env cli args s1
  else runOne env cli args s

/-! ## Vocabulary of the properties -/

/-- The method the tokens name on a handler, if any: what `MethodByName` finds
under the name `command` builds from them.  No initializer is involved. -/
def lookup {W ε : Type} (env : Env W) (h : Handler W ε) (toks : List GoString) :
    Option (Method W ε) :=
  match camelArgs env toks with
  | none => none
  | some camel => (h.MethodByName (methodName camel)).map fun fn => ⟨methodName camel, fn⟩

/-- The initialization that follows a successful lookup in `command`: nothing
when the handler is no `Initializer`, one call of `Initialize` otherwise; the
value is the error `Initialize` returned. -/
def initStep {W ε : Type} (h : Handler W ε) (s : St W) : Res W (Option ε) :=
  match h.Initialize with
  | none => Res.ret none s
  | some ini => call s Event.init ini

/-- The resolution order of the specification: the method named by the first
two tokens if there is one, else the method named by the first token, each
with the arguments left for it. -/
def select {W ε : Type} (env : Env W) (h : Handler W ε) (args : List GoString) :
    Option (Method W ε × List GoString) :=
  match args with
  | a :: b :: rest =>
    match lookup env h [a, b] with
    | some m => some (m, rest)
    | none => (lookup env h [a]).map fun m => (m, b :: rest)
  | [a] => (lookup env h [a]).map fun m => (m, [])
  | [] => none

/-- Title case as the specification words it: first character upper-cased,
remainder lower-cased (on ASCII tokens a character is a byte). -/
def specTitle : GoString → GoString
  | [] => []
  | c :: cs => upperByte c :: cs.map lowerByte

/-- An ASCII letter. -/
def isLetter (c : Nat) : Bool := (65 ≤ c && c ≤ 90) || (97 ≤ c && c ≤ 122)

/-- A non-empty token made of ASCII letters only. -/
def Alphabetic (t : GoString) : Prop := t ≠ [] ∧ ∀ c ∈ t, isLetter c = true

instance (t : GoString) : Decidable (Alphabetic t) := by
  unfold Alphabetic
  infer_instance

/-- The token `t2` is a re-casing of `t1`: the same letters up to case. -/
def Recase (t1 t2 : GoString) : Prop := t2.map lowerByte = t1.map lowerByte

/-! ## Fixtures: a small handler in the shape of `DaoliCli` -/

/-- A stand-in environment for examples: the Unicode mappings are not
consulted on ASCII tokens, and `flag.Usage` returns. -/
def demoEnv : Env Nat := ⟨id, id, fun w => Ext.ret () (w + 100)⟩

/-- A handler with the methods `CmdPolicy` and `CmdPolicyList`; the world is a
counter each method advances, and `CmdPolicyList` returns an error. -/
def demoHandler (ini : Option (Nat → Ext Nat (Option GoString))) : Handler Nat GoString where
  MethodByName := fun n =>
    if n = str "CmdPolicy" then some fun _ w => Ext.ret none (w + 1)
    else if n = str "CmdPolicyList" then some fun args w => Ext.ret (some (str "list failed")) (w + 10 + args.length)
    else none
  Initialize := ini

/-- An initializer that fails with the error `connection refused`. -/
def failingInit : Nat → Ext Nat (Option GoString) :=
  fun w => Ext.ret (some (str "connection refused")) (w + 1000)

/-- An initializer that succeeds. -/
def goodInit : Nat → Ext Nat (Option GoString) :=
  fun w => Ext.ret none (w + 1000)

/-- A Cli over `demoHandler` with nil `Stderr` and nil `Usage`. -/
def demoCli (ini : Option (Nat → Ext Nat (Option GoString))) : Cli Nat GoString :=
  ⟨none, demoHandler ini, none⟩

/-- The initial state of the examples. -/
def s0 : St Nat := ⟨0, []⟩

/-! ## `initErr.Error` -/

/-- The struct `initErr`: a wrapper with one embedded field of type `error`. -/
structure initErr (ε : Type) where
  error : ε

/-- The method `initErr.Error`, whose body is `return err.Error()`.  The
receiver `err` has type `initErr`, and a method declared on `initErr` itself
hides the `Error` promoted from the embedded field, so the call is a call of
this same method on the same receiver.  `fuel` bounds the depth of calls;
`none` means the call did not return within it. -/
def initErr.Error {ε : Type} (fuel : Nat) (err : initErr ε) : Option GoString :=
  match fuel with
  | 0 => none
  | fuel + 1 => initErr.Error fuel err

/-! ## `Subcmd` -/

/-- The type `flag.ErrorHandling`. -/
inductive ErrorHandling where
  | ContinueOnError
  | ExitOnError
  | PanicOnError
  deriving DecidableEq, Repr

/-- One step of a usage callback: a `fmt.Fprintf` of `text` to `os.Stdout`, or
the call `flags.PrintDefaults()`. -/
inductive UsageStep where
  | stdout (text : GoString)
  | printDefaults
  deriving DecidableEq, Repr

/-- The part of a `flag.FlagSet` that `Subcmd` fills in: the name, the error
handling, and the steps its `Usage` callback performs. -/
structure FlagSet where
  name : GoString
  errorHandling : ErrorHandling
  Usage : List UsageStep
  deriving DecidableEq, Repr

/-- The loop `for i, synopsis := range synopses` of the usage callback, from
index `i` on: one `Fprintf` of `"\n%sdaolictl %s%s%s"` per synopsis. -/
def synopsisLines (name options : GoString) : Nat → List GoString → List UsageStep
  | _, [] => []
  | i, synopsis :: rest =>
    let lead := if i = 0 then str "Usage:\t" else str "\t"
    let synopsis := if synopsis ≠ str "" then str " " ++ synopsis else synopsis
    UsageStep.stdout (str "\n" ++ lead ++ str "daolictl " ++ name ++ options ++ synopsis) ::
      synopsisLines name options (i + 1) rest

/-- The function `Subcmd`. -/
def Subcmd (name : GoString) (synopses : List GoString) (description : GoString)
    (exitOnError : Bool) : FlagSet :=
  let errorHandling :=
    if exitOnError then ErrorHandling.ExitOnError else ErrorHandling.ContinueOnError
  { name := name
    errorHandling := errorHandling
    Usage :=
      let options := str ""
      let synopses := if synopses.length = 0 then [str ""] else synopses
      synopsisLines name options 0 synopses ++
        [UsageStep.stdout (str "\n\n" ++ description ++ str "\n"), UsageStep.printDefaults] }

/-- The text a usage callback prints to `os.Stdout` before it reaches
`PrintDefaults`. -/
def stdoutText : List UsageStep → GoString
  | [] => []
  | UsageStep.stdout text :: rest => text ++ stdoutText rest
  | UsageStep.printDefaults :: _ => []

/-- The usage line of the specification for the synopsis `s` at position `i`:
a newline, `Usage:` and a tab on the first line and a tab alone on the others,
the program name, the command name, and the synopsis after one space when it
is not empty. -/
def specUsageLine (name : GoString) (i : Nat) (s : GoString) : GoString :=
  str "\n" ++ (if i = 0 then str "Usage:\t" else str "\t") ++ str "daolictl " ++ name ++
    (if s = [] then [] else str " " ++ s)

/-- The usage text of the specification: the usage lines of the synopses in
order, a blank line, the description, a newline. -/
def specUsageText (name : GoString) (synopses : List GoString) (description : GoString) :
    GoString :=
  (synopses.enum.map fun p => specUsageLine name p.1 p.2).flatten ++
    (str "\n\n" ++ description ++ str "\n")

/-- The capability name `command` builds from the tokens, when it gets as far
as building one. -/
def capabilityName {W : Type} (env : Env W) (toks : List GoString) : Option GoString :=
  (camelArgs env toks).map methodName

/-! ## Lemmas on the embedding -/

section Lemmas

variable {W ε : Type}

@[simp] theorem Res.bind_ret {α β : Type} (a : α) (s : St W) (k : α → St W → Res W β) :
    (Res.ret a s).bind k = k a s := rfl

@[simp] theorem Res.bind_exit {α β : Type} (c : Int) (s : St W) (k : α → St W → Res W β) :
    (Res.exit c s : Res W α).bind k = Res.exit c s := rfl

@[simp] theorem Res.bind_stop {α β : Type} (s : St W) (k : α → St W → Res W β) :
    (Res.stop s : Res W α).bind k = Res.stop s := rfl

/-- The loop of `command` fails exactly on the lists with an empty token. -/
theorem camelArgs_eq_none_iff (env : Env W) (args : List GoString) :
    camelArgs env args = none ↔ [] ∈ args := by
  induction args with
  | nil => simp [camelArgs]
  | cons t rest ih =>
    by_cases ht : t = []
    · subst ht
      simp [camelArgs]
    · have hl : t.length ≠ 0 := by simpa using ht
      have hne : ¬ ([] : GoString) = t := fun h => ht h.symm
      simp [camelArgs, hl, ih, hne]

/-- When the tokens name no method, `command` returns one of its two plain
errors and leaves the state alone. -/
theorem command_of_lookup_none (env : Env W) (cli : Cli W ε) (toks : List GoString) (s : St W)
    (h : lookup env cli.handler toks = none) :
    ∃ msg, command env cli toks s = Res.ret (Except.error (GoErr.errorString msg)) s := by
  cases hc : camelArgs env toks with
  | none => exact ⟨str "empty command", by simp only [command, hc]⟩
  | some camel =>
    cases hm : cli.handler.MethodByName (methodName camel) with
    | none => exact ⟨str "command not found", by simp only [command, hc, hm]⟩
    | some fn => simp [lookup, hc, hm] at h

/-- When the tokens name a method and the handler has no initializer,
`command` returns the method. -/
theorem command_of_lookup_noInit (env : Env W) (cli : Cli W ε) (toks : List GoString) (s : St W)
    (m : Method W ε) (h : lookup env cli.handler toks = some m)
    (hi : cli.handler.Initialize = none) :
    command env cli toks s = Res.ret (Except.ok m) s := by
  cases hc : camelArgs env toks with
  | none => simp [lookup, hc] at h
  | some camel =>
    cases hm : cli.handler.MethodByName (methodName camel) with
    | none => simp [lookup, hc, hm] at h
    | some fn =>
      simp only [lookup, hc, hm, Option.map_some', Option.some.injEq] at h
      simp only [command, hc, hm, hi, h]

/-- When the tokens name a method and the handler has an initializer,
`command` calls it once and turns its result into the method, the wrapped
error, or no return at all. -/
theorem command_of_lookup_init (env : Env W) (cli : Cli W ε) (toks : List GoString) (s : St W)
    (m : Method W ε) (ini : W → Ext W (Option ε)) (h : lookup env cli.handler toks = some m)
    (hi : cli.handler.Initialize = some ini) :
    command env cli toks s =
      match ini s.world with
      | Ext.ret none w => Res.ret (Except.ok m) ⟨w, s.trace ++ [Event.init]⟩
      | Ext.ret (some e) w => Res.ret (Except.error (GoErr.initErr e)) ⟨w, s.trace ++ [Event.init]⟩
      | Ext.stop w => Res.stop ⟨w, s.trace ++ [Event.init]⟩ := by
  cases hc : camelArgs env toks with
  | none => simp [lookup, hc] at h
  | some camel =>
    cases hm : cli.handler.MethodByName (methodName camel) with
    | none => simp [lookup, hc, hm] at h
    | some fn =>
      simp only [lookup, hc, hm, Option.map_some', Option.some.injEq] at h
      simp only [command, hc, hm, hi, h, call]
      cases hr : ini s.world with
      | ret a w => cases a <;> simp
      | stop w => simp

/-- When the tokens name a method, `command` is the initialization step
followed by the choice between the method and the wrapped error. -/
theorem command_of_lookup_some (env : Env W) (cli : Cli W ε) (toks : List GoString) (s : St W)
    (m : Method W ε) (h : lookup env cli.handler toks = some m) :
    command env cli toks s =
      (initStep cli.handler s).bind fun err s1 =>
        match err with
        | some e => Res.ret (Except.error (GoErr.initErr e)) s1
        | none => Res.ret (Except.ok m) s1 := by
  cases hi : cli.handler.Initialize with
  | none => simp [command_of_lookup_noInit env cli toks s m h hi, initStep, hi]
  | some ini =>
    rw [command_of_lookup_init env cli toks s m ini h hi]
    simp only [initStep, hi, call]
    cases ini s.world with
    | ret r w => cases r <;> simp
    | stop w => simp

/-- The initialization step adds at most the one `init` event to the trace. -/
theorem initStep_trace (h : Handler W ε) (s s1 : St W) (r : Option ε)
    (hi : initStep h s = Res.ret r s1) :
    (h.Initialize = none ∧ s1 = s) ∨
      (∃ ini, h.Initialize = some ini ∧ ini s.world = Ext.ret r s1.world ∧
        s1.trace = s.trace ++ [Event.init]) := by
  unfold initStep at hi
  cases hh : h.Initialize with
  | none =>
    rw [hh] at hi
    simp only [Res.ret.injEq] at hi
    exact Or.inl ⟨rfl, hi.2.symm⟩
  | some ini =>
    rw [hh] at hi
    right
    refine ⟨ini, rfl, ?_⟩
    simp only [call] at hi
    cases hw : ini s.world with
    | ret a w =>
      rw [hw] at hi
      simp only [Res.ret.injEq] at hi
      obtain ⟨rfl, rfl⟩ := hi
      exact ⟨rfl, rfl⟩
    | stop w => rw [hw] at hi; simp at hi

/-- With two or more arguments `Run` starts with the two-token attempt. -/
theorem Run_cons_cons (env : Env W) (cli : Cli W ε) (a b : GoString) (rest : List GoString)
    (s : St W) :
    Run env cli (a :: b :: rest) s =
      (command env cli [a, b] s).bind fun r s1 =>
        match r with
        | Except.ok cmd => invoke cmd rest s1
        | Except.error (GoErr.initErr e) => Res.ret (some e) s1
        | Except.error (GoErr.errorString _) => runOne env cli (a :: b :: rest) s1 := by
  simp [Run]

/-- With exactly one argument `Run` goes straight to the one-token attempt. -/
theorem Run_singleton (env : Env W) (cli : Cli W ε) (a : GoString) (s : St W) :
    Run env cli [a] s = runOne env cli [a] s := by
  simp [Run]

/-- With two or more arguments `CmdHelp` starts with the two-token attempt. -/
theorem CmdHelp_cons_cons (env : Env W) (cli : Cli W ε) (a b : GoString) (rest : List GoString)
    (s : St W) :
    CmdHelp env cli (a :: b :: rest) s =
      (command env cli [a, b] s).bind fun r s1 =>
        match r with
        | Except.ok cmd => (invoke cmd [str "--help"] s1).bind fun _ s2 => Res.ret none s2
        | Except.error (GoErr.initErr e) => Res.ret (some e) s1
        | Except.error (GoErr.errorString _) => helpOne env cli (a :: b :: rest) s1 := by
  simp [CmdHelp]

/-- With exactly one argument `CmdHelp` goes straight to the one-token attempt. -/
theorem CmdHelp_singleton (env : Env W) (cli : Cli W ε) (a : GoString) (s : St W) :
    CmdHelp env cli [a] s = helpOne env cli [a] s := by
  simp [CmdHelp]

/-- On a string of ASCII letters the byte-wise path of `ToUpper` is taken. -/
theorem isASCII_of_letters (t : GoString) (h : ∀ c ∈ t, isLetter c = true) : isASCII t = true := by
  simp only [isASCII, List.all_eq_true, decide_eq_true_eq]
  intro c hc
  have := h c hc
  simp only [isLetter, Bool.or_eq_true, Bool.and_eq_true, decide_eq_true_eq] at this
  omega

/-- On a token of ASCII letters the expression
`strings.ToUpper(s[:1]) + strings.ToLower(s[1:])` is the title case of the
specification. -/
theorem title_eq_specTitle (env : Env W) (t : GoString) (h : ∀ c ∈ t, isLetter c = true) :
    ToUpper env (t.take 1) ++ ToLower env (t.drop 1) = specTitle t := by
  cases t with
  | nil => simp [ToUpper, ToLower, isASCII, specTitle]
  | cons c cs =>
    have h1 : isASCII [c] = true := isASCII_of_letters [c] (by
      intro x hx
      exact h x (by simp only [List.mem_singleton] at hx; simp [hx]))
    have h2 : isASCII cs = true := isASCII_of_letters cs (by
      intro x hx
      exact h x (List.mem_cons_of_mem _ hx))
    simp [ToUpper, ToLower, h1, h2, specTitle]

/-- Two letters that agree after lower-casing agree after upper-casing, and a
byte that lower-cases like a letter is a letter. -/
theorem upperByte_of_lowerByte (c d : Nat) (hc : isLetter c = true)
    (h : lowerByte d = lowerByte c) : isLetter d = true ∧ upperByte d = upperByte c := by
  simp only [isLetter, Bool.or_eq_true, Bool.and_eq_true, decide_eq_true_eq] at hc ⊢
  unfold lowerByte at h
  unfold upperByte
  split_ifs at h ⊢ <;> omega

/-- A re-casing of a token of ASCII letters is a token of ASCII letters with
the same title case. -/
theorem specTitle_recase (t1 t2 : GoString) (h1 : Alphabetic t1) (h : Recase t1 t2) :
    Alphabetic t2 ∧ specTitle t2 = specTitle t1 := by
  obtain ⟨hne, hl⟩ := h1
  unfold Recase at h
  have letters : ∀ (u v : GoString), (∀ c ∈ u, isLetter c = true) →
      v.map lowerByte = u.map lowerByte → ∀ c ∈ v, isLetter c = true := by
    intro u
    induction u with
    | nil =>
      intro v _ hv c hc
      simp only [List.map_nil, List.map_eq_nil_iff] at hv
      simp [hv] at hc
    | cons x xs ih =>
      intro v hu hv c hc
      cases v with
      | nil => simp at hc
      | cons y ys =>
        simp only [List.map_cons, List.cons.injEq] at hv
        rcases List.mem_cons.mp hc with rfl | hc
        · exact (upperByte_of_lowerByte x c (hu x (by simp)) hv.1).1
        · exact ih ys (fun z hz => hu z (List.mem_cons_of_mem _ hz)) hv.2 c hc
  cases t1 with
  | nil => exact absurd rfl hne
  | cons c cs =>
    cases t2 with
    | nil => simp at h
    | cons d ds =>
      simp only [List.map_cons, List.cons.injEq] at h
      refine ⟨⟨by simp, letters (c :: cs) (d :: ds) hl (by simp [h.1, h.2])⟩, ?_⟩
      simp only [specTitle, h.2, List.cons.injEq, and_true]
      exact (upperByte_of_lowerByte c d (hl c (by simp)) h.1).2

/-- On two tokens of ASCII letters `lookup` consults the method table under
`"Cmd"` followed by the two title-cased tokens. -/
theorem lookup_pair_alphabetic (env : Env W) (h : Handler W ε) (a b : GoString)
    (ha : Alphabetic a) (hb : Alphabetic b) :
    lookup env h [a, b] =
      (h.MethodByName (str "Cmd" ++ specTitle a ++ specTitle b)).map fun fn =>
        ⟨str "Cmd" ++ specTitle a ++ specTitle b, fn⟩ := by
  have hla : a.length ≠ 0 := by simpa using ha.1
  have hlb : b.length ≠ 0 := by simpa using hb.1
  have hc : camelArgs env [a, b] = some [specTitle a, specTitle b] := by
    simp only [camelArgs, hla, hlb, if_false, Option.map_some',
      title_eq_specTitle env a ha.2, title_eq_specTitle env b hb.2]
  simp [lookup, hc, methodName]

/-- The one-token block of `Run` when the first token names a method. -/
theorem runOne_of_lookup_some (env : Env W) (cli : Cli W ε) (a : GoString)
    (rest : List GoString) (s : St W) (m : Method W ε)
    (h : lookup env cli.handler [a] = some m) :
    runOne env cli (a :: rest) s =
      (initStep cli.handler s).bind fun err s1 =>
        match err with
        | some e => Res.ret (some e) s1
        | none => invoke m rest s1 := by
  simp only [runOne, command_of_lookup_some env cli [a] s m h]
  cases initStep cli.handler s with
  | ret r s1 => cases r <;> simp
  | exit c s1 => simp
  | stop s1 => simp

/-- The one-token block of `CmdHelp` when the first token names a method. -/
theorem helpOne_of_lookup_some (env : Env W) (cli : Cli W ε) (a : GoString)
    (rest : List GoString) (s : St W) (m : Method W ε)
    (h : lookup env cli.handler [a] = some m) :
    helpOne env cli (a :: rest) s =
      (initStep cli.handler s).bind fun err s1 =>
        match err with
        | some e => Res.ret (some e) s1
        | none => (invoke m [str "--help"] s1).bind fun _ s2 => Res.ret none s2 := by
  simp only [helpOne, command_of_lookup_some env cli [a] s m h]
  cases initStep cli.handler s with
  | ret r s1 => cases r <;> simp
  | exit c s1 => simp
  | stop s1 => simp

/-- The one-token block of `Run` when the first token names no method: the
message and `os.Exit(1)`. -/
theorem runOne_of_lookup_none (env : Env W) (cli : Cli W ε) (a : GoString)
    (rest : List GoString) (s : St W) (h : lookup env cli.handler [a] = none) :
    runOne env cli (a :: rest) s =
      Res.exit 1 ⟨s.world, s.trace ++
        [Event.fprintf (cli.Stderr.getD Writer.osStderr) (noSuchCommandMsg a)]⟩ := by
  obtain ⟨msg, hmsg⟩ := command_of_lookup_none env cli [a] s h
  simp only [runOne, hmsg, Res.bind_ret, noSuchCommand, Res.bind_exit]
  cases cli.Stderr <;> rfl

/-- The one-token block of `CmdHelp` when the first token names no method. -/
theorem helpOne_of_lookup_none (env : Env W) (cli : Cli W ε) (a : GoString)
    (rest : List GoString) (s : St W) (h : lookup env cli.handler [a] = none) :
    helpOne env cli (a :: rest) s =
      Res.exit 1 ⟨s.world, s.trace ++
        [Event.fprintf (cli.Stderr.getD Writer.osStderr) (noSuchCommandMsg a)]⟩ := by
  obtain ⟨msg, hmsg⟩ := command_of_lookup_none env cli [a] s h
  simp only [helpOne, hmsg, Res.bind_ret, noSuchCommand, Res.bind_exit]
  cases cli.Stderr <;> rfl

/-- The dispatcher `Run` on arguments that resolve: the initialization step,
then the selected method on the arguments left for it. -/
theorem Run_of_select_some (env : Env W) (cli : Cli W ε) (args rest : List GoString) (s : St W)
    (m : Method W ε) (h : select env cli.handler args = some (m, rest)) :
    Run env cli args s =
      (initStep cli.handler s).bind fun err s1 =>
        match err with
        | some e => Res.ret (some e) s1
        | none => invoke m rest s1 := by
  match args, h with
  | [], h => simp [select] at h
  | [a], h =>
    cases h1 : lookup env cli.handler [a] with
    | none => simp [select, h1] at h
    | some m1 =>
      simp only [select, h1, Option.map_some', Option.some.injEq, Prod.mk.injEq] at h
      obtain ⟨rfl, rfl⟩ := h
      rw [Run_singleton, runOne_of_lookup_some env cli a [] s m1 h1]
  | a :: b :: tl, h =>
    cases h2 : lookup env cli.handler [a, b] with
    | some m2 =>
      simp only [select, h2, Option.some.injEq, Prod.mk.injEq] at h
      obtain ⟨rfl, rfl⟩ := h
      rw [Run_cons_cons, command_of_lookup_some env cli [a, b] s m2 h2]
      cases initStep cli.handler s with
      | ret r s1 => cases r <;> simp
      | exit c s1 => simp
      | stop s1 => simp
    | none =>
      cases h1 : lookup env cli.handler [a] with
      | none => simp [select, h2, h1] at h
      | some m1 =>
        simp only [select, h2, h1, Option.map_some', Option.some.injEq, Prod.mk.injEq] at h
        obtain ⟨rfl, rfl⟩ := h
        obtain ⟨msg, hmsg⟩ := command_of_lookup_none env cli [a, b] s h2
        rw [Run_cons_cons, hmsg]
        simp only [Res.bind_ret]
        exact runOne_of_lookup_some env cli a (b :: tl) s m1 h1

/-- The help renderer `CmdHelp` on arguments that resolve: the initialization
step, then the selected method on the single argument `--help`, its result
dropped. -/
theorem CmdHelp_of_select_some (env : Env W) (cli : Cli W ε) (args rest : List GoString)
    (s : St W) (m : Method W ε) (h : select env cli.handler args = some (m, rest)) :
    CmdHelp env cli args s =
      (initStep cli.handler s).bind fun err s1 =>
        match err with
        | some e => Res.ret (some e) s1
        | none => (invoke m [str "--help"] s1).bind fun _ s2 => Res.ret none s2 := by
  match args, h with
  | [], h => simp [select] at h
  | [a], h =>
    cases h1 : lookup env cli.handler [a] with
    | none => simp [select, h1] at h
    | some m1 =>
      simp only [select, h1, Option.map_some', Option.some.injEq, Prod.mk.injEq] at h
      obtain ⟨rfl, rfl⟩ := h
      rw [CmdHelp_singleton, helpOne_of_lookup_some env cli a [] s m1 h1]
  | a :: b :: tl, h =>
    cases h2 : lookup env cli.handler [a, b] with
    | some m2 =>
      simp only [select, h2, Option.some.injEq, Prod.mk.injEq] at h
      obtain ⟨rfl, rfl⟩ := h
      rw [CmdHelp_cons_cons, command_of_lookup_some env cli [a, b] s m2 h2]
      cases initStep cli.handler s with
      | ret r s1 => cases r <;> simp
      | exit c s1 => simp
      | stop s1 => simp
    | none =>
      cases h1 : lookup env cli.handler [a] with
      | none => simp [select, h2, h1] at h
      | some m1 =>
        simp only [select, h2, h1, Option.map_some', Option.some.injEq, Prod.mk.injEq] at h
        obtain ⟨rfl, rfl⟩ := h
        obtain ⟨msg, hmsg⟩ := command_of_lookup_none env cli [a, b] s h2
        rw [CmdHelp_cons_cons, hmsg]
        simp only [Res.bind_ret]
        exact helpOne_of_lookup_some env cli a (b :: tl) s m1 h1

/-- When nothing resolves, no token of a non-empty list names a method. -/
theorem lookup_of_select_none (env : Env W) (h : Handler W ε) (a : GoString)
    (rest : List GoString) (hs : select env h (a :: rest) = none) :
    lookup env h [a] = none ∧ ∀ b tl, rest = b :: tl → lookup env h [a, b] = none := by
  cases rest with
  | nil =>
    refine ⟨?_, by simp⟩
    simpa [select] using hs
  | cons b tl =>
    cases h2 : lookup env h [a, b] with
    | some m => simp [select, h2] at hs
    | none =>
      refine ⟨by simpa [select, h2] using hs, ?_⟩
      intro b2 tl2 e
      simp only [List.cons.injEq] at e
      obtain ⟨rfl, rfl⟩ := e
      exact h2

/-- The dispatcher `Run` on non-empty arguments that do not resolve: the
message naming the first argument and `os.Exit(1)`. -/
theorem Run_of_select_none (env : Env W) (cli : Cli W ε) (a : GoString) (rest : List GoString)
    (s : St W) (h : select env cli.handler (a :: rest) = none) :
    Run env cli (a :: rest) s =
      Res.exit 1 ⟨s.world, s.trace ++
        [Event.fprintf (cli.Stderr.getD Writer.osStderr) (noSuchCommandMsg a)]⟩ := by
  obtain ⟨h1, h2⟩ := lookup_of_select_none env cli.handler a rest h
  cases rest with
  | nil => rw [Run_singleton]; exact runOne_of_lookup_none env cli a [] s h1
  | cons b tl =>
    obtain ⟨msg, hmsg⟩ := command_of_lookup_none env cli [a, b] s (h2 b tl rfl)
    rw [Run_cons_cons, hmsg]
    simp only [Res.bind_ret]
    exact runOne_of_lookup_none env cli a (b :: tl) s h1

/-- The help renderer `CmdHelp` on non-empty arguments that do not resolve. -/
theorem CmdHelp_of_select_none (env : Env W) (cli : Cli W ε) (a : GoString)
    (rest : List GoString) (s : St W) (h : select env cli.handler (a :: rest) = none) :
    CmdHelp env cli (a :: rest) s =
      Res.exit 1 ⟨s.world, s.trace ++
        [Event.fprintf (cli.Stderr.getD Writer.osStderr) (noSuchCommandMsg a)]⟩ := by
  obtain ⟨h1, h2⟩ := lookup_of_select_none env cli.handler a rest h
  cases rest with
  | nil => rw [CmdHelp_singleton]; exact helpOne_of_lookup_none env cli a [] s h1
  | cons b tl =>
    obtain ⟨msg, hmsg⟩ := command_of_lookup_none env cli [a, b] s (h2 b tl rfl)
    rw [CmdHelp_cons_cons, hmsg]
    simp only [Res.bind_ret]
    exact helpOne_of_lookup_none env cli a (b :: tl) s h1

/-- The token `help` names the method `CmdHelp` of the handler. -/
theorem lookup_help (env : Env W) (h : Handler W ε) :
    lookup env h [str "help"] = (h.MethodByName (str "CmdHelp")).map fun fn => ⟨str "CmdHelp", fn⟩ := by
  have e1 : str "help" = [104, 101, 108, 112] := by decide
  have e2 : str "CmdHelp" = [67, 109, 100, 72, 101, 108, 112] := by decide
  have e3 : str "Cmd" = [67, 109, 100] := by decide
  have hc : camelArgs env [str "help"] = some [[72, 101, 108, 112]] := by
    rw [e1]
    simp [camelArgs, ToUpper, ToLower, isASCII, upperByte, lowerByte]
  simp only [lookup, hc, methodName, e2, e3]
  rfl

/-- The initialization step never ends the process by itself. -/
theorem initStep_ne_exit (h : Handler W ε) (s s1 : St W) (c : Int) :
    initStep h s ≠ Res.exit c s1 := by
  unfold initStep
  cases h.Initialize with
  | none => simp
  | some ini =>
    simp only [call]
    cases ini s.world <;> simp

/-- A plain error of `command` comes with the state untouched: no initializer
was called on the way to it. -/
theorem command_errorString_state (env : Env W) (cli : Cli W ε) (toks : List GoString)
    (s s1 : St W) (msg : GoString)
    (h : command env cli toks s = Res.ret (Except.error (GoErr.errorString msg)) s1) :
    s1 = s := by
  cases hl : lookup env cli.handler toks with
  | none =>
    obtain ⟨msg2, h2⟩ := command_of_lookup_none env cli toks s hl
    rw [h2] at h
    simp only [Res.ret.injEq] at h
    exact h.2.symm
  | some m =>
    rw [command_of_lookup_some env cli toks s m hl] at h
    cases hi : initStep cli.handler s with
    | ret r s2 => rw [hi] at h; cases r <;> simp at h
    | exit c s2 => rw [hi] at h; simp at h
    | stop s2 => rw [hi] at h; simp at h

/-- The trace a call leaves behind: the old trace and the event of the call. -/
theorem call_trace {α : Type} (s : St W) (ev : Event) (f : W → Ext W α) :
    (call s ev f).st.trace = s.trace ++ [ev] := by
  unfold call
  cases f s.world <;> rfl

/-- The trace of `Run` on arguments that do not resolve: one event, which is
not the call of a method. -/
theorem Run_trace_of_select_none (env : Env W) (cli : Cli W ε) (args : List GoString)
    (s : St W) (h : select env cli.handler args = none) :
    ∃ ev, (Run env cli args s).st.trace = s.trace ++ [ev] ∧ ∀ n xs, ev ≠ Event.invoke n xs := by
  cases args with
  | nil =>
    cases hu : cli.Usage with
    | none =>
      refine ⟨Event.usage false, ?_, by simp⟩
      simp only [Run, runOne, CmdHelp, helpOne, topUsage, hu, call, List.length_nil, gt_iff_lt,
        Nat.not_lt_zero, if_false]
      cases env.flagUsage s.world <;> rfl
    | some u =>
      refine ⟨Event.usage true, ?_, by simp⟩
      simp only [Run, runOne, CmdHelp, helpOne, topUsage, hu, call, List.length_nil, gt_iff_lt,
        Nat.not_lt_zero, if_false]
      cases u s.world <;> rfl
  | cons a rest =>
    exact ⟨_, by rw [Run_of_select_none env cli a rest s h]; rfl, by simp⟩

/-- The trace of `Run` on arguments that resolve, for a handler with an
initializer: the call of the initializer, followed by the call of the selected
method exactly when the initializer returned nil. -/
theorem Run_trace_of_select_some (env : Env W) (cli : Cli W ε) (args rest : List GoString)
    (s : St W) (m : Method W ε) (ini : W → Ext W (Option ε))
    (h : select env cli.handler args = some (m, rest))
    (hini : cli.handler.Initialize = some ini) :
    (Run env cli args s).st.trace = s.trace ++ [Event.init] ∨
      (Run env cli args s).st.trace = s.trace ++ [Event.init, Event.invoke m.name rest] := by
  rw [Run_of_select_some env cli args rest s m h]
  simp only [initStep, hini, call]
  cases ini s.world with
  | stop w => left; rfl
  | ret r w =>
    cases r with
    | some e => left; rfl
    | none =>
      right
      simp only [Res.bind_ret, invoke]
      rw [call_trace]
      simp

/-- The empty string literal is the empty byte sequence. -/
theorem str_empty : str "" = [] := rfl

/-- The text printed by the loop of the usage callback from index `i` on is
the sequence of usage lines of the specification for those positions. -/
theorem stdoutText_synopsisLines (name : GoString) (l : List GoString) (i : Nat)
    (tail : List UsageStep) :
    stdoutText (synopsisLines name (str "") i l ++ tail) =
      ((l.enumFrom i).map fun p => specUsageLine name p.1 p.2).flatten ++ stdoutText tail := by
  induction l generalizing i with
  | nil => simp [synopsisLines]
  | cons x xs ih =>
    have step : synopsisLines name (str "") i (x :: xs) =
        UsageStep.stdout (str "\n" ++ (if i = 0 then str "Usage:\t" else str "\t") ++
          str "daolictl " ++ name ++ str "" ++ (if x ≠ str "" then str " " ++ x else x)) ::
          synopsisLines name (str "") (i + 1) xs := rfl
    rw [step, List.cons_append, stdoutText, ih (i + 1), List.enumFrom_cons, List.map_cons,
      List.flatten_cons]
    by_cases hx : x = []
    · simp [hx, specUsageLine, str_empty]
    · simp [hx, specUsageLine, str_empty]

/-- The text the usage callback of `Subcmd` prints for a non-empty list of
synopses. -/
theorem stdoutText_Subcmd_cons (name s0 : GoString) (ss : List GoString) (description : GoString)
    (exitOnError : Bool) :
    stdoutText (Subcmd name (s0 :: ss) description exitOnError).Usage =
      specUsageText name (s0 :: ss) description := by
  have h : (Subcmd name (s0 :: ss) description exitOnError).Usage =
      synopsisLines name (str "") 0 (s0 :: ss) ++
        [UsageStep.stdout (str "\n\n" ++ description ++ str "\n"), UsageStep.printDefaults] := rfl
  rw [h, stdoutText_synopsisLines]
  simp only [specUsageText, List.enum, stdoutText, List.append_nil]

/-- On tokens of ASCII letters the loop of `command` produces the title case
of each token. -/
theorem camelArgs_alphabetic (env : Env W) (xs : List GoString)
    (h : ∀ t ∈ xs, Alphabetic t) : camelArgs env xs = some (xs.map specTitle) := by
  induction xs with
  | nil => rfl
  | cons x xs ih =>
    have hx : Alphabetic x := h x (by simp)
    have hl : x.length ≠ 0 := by simpa using hx.1
    simp only [camelArgs, hl, if_false, ih (fun t ht => h t (List.mem_cons_of_mem _ ht)),
      Option.map_some', title_eq_specTitle env x hx.2, List.map_cons]

/-- The title case of a token of ASCII letters: an upper-case letter followed
by lower-case letters. -/
theorem specTitle_shape (t : GoString) (h : Alphabetic t) :
    ∃ u rest, specTitle t = u :: rest ∧ u ≤ 90 ∧ ∀ c ∈ rest, 97 ≤ c := by
  obtain ⟨hne, hl⟩ := h
  cases t with
  | nil => exact absurd rfl hne
  | cons c cs =>
    refine ⟨upperByte c, cs.map lowerByte, rfl, ?_, ?_⟩
    · have := hl c (by simp)
      simp only [isLetter, Bool.or_eq_true, Bool.and_eq_true, decide_eq_true_eq] at this
      unfold upperByte
      split_ifs <;> omega
    · intro d hd
      obtain ⟨e, he, rfl⟩ := List.mem_map.mp hd
      have := hl e (List.mem_cons_of_mem _ he)
      simp only [isLetter, Bool.or_eq_true, Bool.and_eq_true, decide_eq_true_eq] at this
      unfold lowerByte
      split_ifs <;> omega

/-- A run of lower-case bytes followed by a rest that is empty or starts with
an upper-case byte can be read back in one way only. -/
theorem lower_run_unique (l1 l2 r1 r2 : List Nat)
    (h1 : ∀ c ∈ l1, 97 ≤ c) (h2 : ∀ c ∈ l2, 97 ≤ c)
    (hr1 : ∀ c ∈ r1.head?, c ≤ 90) (hr2 : ∀ c ∈ r2.head?, c ≤ 90)
    (h : l1 ++ r1 = l2 ++ r2) : l1 = l2 ∧ r1 = r2 := by
  induction l1 generalizing l2 with
  | nil =>
    cases l2 with
    | nil => exact ⟨rfl, by simpa using h⟩
    | cons d l2 =>
      simp only [List.nil_append, List.cons_append] at h
      subst h
      have a := hr1 d (by simp)
      have b := h2 d (by simp)
      omega
  | cons c l1 ih =>
    cases l2 with
    | nil =>
      simp only [List.nil_append, List.cons_append] at h
      subst h
      have a := hr2 c (by simp)
      have b := h1 c (by simp)
      omega
    | cons d l2 =>
      simp only [List.cons_append, List.cons.injEq] at h
      obtain ⟨rfl, h⟩ := h
      obtain ⟨e1, e2⟩ := ih l2 (fun x hx => h1 x (List.mem_cons_of_mem _ hx))
        (fun x hx => h2 x (List.mem_cons_of_mem _ hx)) h
      exact ⟨by rw [e1], e2⟩

/-- The concatenated title cases of tokens of ASCII letters are empty or start
with an upper-case byte. -/
theorem titles_head (xs : List GoString) (h : ∀ t ∈ xs, Alphabetic t) :
    ∀ c ∈ ((xs.map specTitle).flatten).head?, c ≤ 90 := by
  cases xs with
  | nil => simp
  | cons x xs =>
    obtain ⟨u, rest, e, hu, _⟩ := specTitle_shape x (h x (by simp))
    intro c hc
    simp only [List.map_cons, List.flatten_cons, e, List.cons_append, List.head?_cons,
      Option.mem_def, Option.some.injEq] at hc
    omega

/-- The concatenation of the title cases of tokens of ASCII letters determines
the title cases one by one: the upper-case letters mark where tokens start. -/
theorem titles_unique (xs ys : List GoString) (hx : ∀ t ∈ xs, Alphabetic t)
    (hy : ∀ t ∈ ys, Alphabetic t)
    (h : (xs.map specTitle).flatten = (ys.map specTitle).flatten) :
    xs.map specTitle = ys.map specTitle := by
  induction xs generalizing ys with
  | nil =>
    cases ys with
    | nil => rfl
    | cons y ys =>
      obtain ⟨u, rest, e, _, _⟩ := specTitle_shape y (hy y (by simp))
      simp [e] at h
  | cons x xs ih =>
    cases ys with
    | nil =>
      obtain ⟨u, rest, e, _, _⟩ := specTitle_shape x (hx x (by simp))
      simp [e] at h
    | cons y ys =>
      obtain ⟨u, ru, eu, _, hu⟩ := specTitle_shape x (hx x (by simp))
      obtain ⟨v, rv, ev, _, hv⟩ := specTitle_shape y (hy y (by simp))
      have hxs : ∀ t ∈ xs, Alphabetic t := fun t ht => hx t (List.mem_cons_of_mem _ ht)
      have hys : ∀ t ∈ ys, Alphabetic t := fun t ht => hy t (List.mem_cons_of_mem _ ht)
      simp only [List.map_cons, List.flatten_cons, eu, ev, List.cons_append,
        List.cons.injEq] at h ⊢
      obtain ⟨huv, h⟩ := h
      obtain ⟨e1, e2⟩ := lower_run_unique ru rv _ _ hu hv (titles_head xs hxs)
        (titles_head ys hys) h
      exact ⟨⟨huv, e1⟩, ih ys hxs hys e2⟩

/-- Two tokens of ASCII letters with the same title case are re-casings of
each other. -/
theorem recase_of_specTitle_eq (x y : GoString) (hx : Alphabetic x) (hy : Alphabetic y)
    (h : specTitle x = specTitle y) : Recase x y := by
  obtain ⟨hnx, hlx⟩ := hx
  obtain ⟨hny, hly⟩ := hy
  cases x with
  | nil => exact absurd rfl hnx
  | cons c cs =>
    cases y with
    | nil => exact absurd rfl hny
    | cons d ds =>
      simp only [specTitle, List.cons.injEq] at h
      simp only [Recase, List.map_cons, List.cons.injEq]
      refine ⟨?_, h.2.symm⟩
      have hc := hlx c (by simp)
      have hd := hly d (by simp)
      have hu := h.1
      simp only [isLetter, Bool.or_eq_true, Bool.and_eq_true, decide_eq_true_eq] at hc hd
      unfold upperByte at hu
      unfold lowerByte
      split_ifs at hu ⊢ <;> omega

/-- Lists of tokens of ASCII letters with the same title cases agree token by
token up to case. -/
theorem forall₂_recase_of_titles (xs ys : List GoString) (hx : ∀ t ∈ xs, Alphabetic t)
    (hy : ∀ t ∈ ys, Alphabetic t) (h : xs.map specTitle = ys.map specTitle) :
    List.Forall₂ Recase xs ys := by
  induction xs generalizing ys with
  | nil =>
    cases ys with
    | nil => exact List.Forall₂.nil
    | cons y ys => simp at h
  | cons x xs ih =>
    cases ys with
    | nil => simp at h
    | cons y ys =>
      simp only [List.map_cons, List.cons.injEq] at h
      exact List.Forall₂.cons
        (recase_of_specTitle_eq x y (hx x (by simp)) (hy y (by simp)) h.1)
        (ih ys (fun t ht => hx t (List.mem_cons_of_mem _ ht))
          (fun t ht => hy t (List.mem_cons_of_mem _ ht)) h.2)

/-- A method found by `lookup` carries the capability name of the tokens. -/
theorem capabilityName_of_lookup (env : Env W) (h : Handler W ε) (toks : List GoString)
    (m : Method W ε) (hl : lookup env h toks = some m) :
    capabilityName env toks = some m.name := by
  unfold lookup at hl
  unfold capabilityName
  cases hc : camelArgs env toks with
  | none => simp [hc] at hl
  | some camel =>
    rw [hc] at hl
    cases hm : h.MethodByName (methodName camel) with
    | none => simp [hm] at hl
    | some fn =>
      simp only [hm, Option.map_some', Option.some.injEq] at hl
      subst hl
      rfl

/-- A method returned by `command` carries the capability name of the
tokens. -/
theorem capabilityName_of_command (env : Env W) (cli : Cli W ε) (toks : List GoString)
    (s s1 : St W) (m : Method W ε) (h : command env cli toks s = Res.ret (Except.ok m) s1) :
    capabilityName env toks = some m.name := by
  cases hl : lookup env cli.handler toks with
  | none =>
    obtain ⟨msg, hmsg⟩ := command_of_lookup_none env cli toks s hl
    rw [hmsg] at h
    simp at h
  | some m2 =>
    rw [command_of_lookup_some env cli toks s m2 hl] at h
    cases hi : initStep cli.handler s with
    | ret r s2 =>
      rw [hi] at h
      cases r with
      | some e => simp at h
      | none =>
        simp only [Res.bind_ret, Res.ret.injEq, Except.ok.injEq] at h
        rw [← h.1]
        exact capabilityName_of_lookup env cli.handler toks m2 hl
    | exit c s2 => rw [hi] at h; simp at h
    | stop s2 => rw [hi] at h; simp at h

/-- Equal capability names of two lists of tokens of ASCII letters force the
lists to agree token by token up to case. -/
theorem recase_of_capabilityName_eq (env : Env W) (xs ys : List GoString)
    (hx : ∀ t ∈ xs, Alphabetic t) (hy : ∀ t ∈ ys, Alphabetic t)
    (h : capabilityName env xs = capabilityName env ys) :
    xs.length = ys.length ∧ List.Forall₂ Recase xs ys := by
  simp only [capabilityName, camelArgs_alphabetic env xs hx, camelArgs_alphabetic env ys hy,
    Option.map_some', Option.some.injEq, methodName, List.append_cancel_left_eq] at h
  have h2 := forall₂_recase_of_titles xs ys hx hy (titles_unique xs ys hx hy h)
  exact ⟨h2.length_eq, h2⟩

/-- The two ways into help.  `Run` with no arguments is the Cli's own `CmdHelp`
with no arguments: one call, to `cli.Usage` when that is set and to
`flag.Usage` otherwise, and nil once it returns.  `Run` on `help` looks up
`CmdHelp` on the handler: the unrecognized-command message and exit when there
is none, else the initialization step and that method with no arguments. -/
theorem Run_nil_and_help (env : Env W) (cli : Cli W ε) (s : St W) :
    Run env cli [] s = CmdHelp env cli [] s ∧
    Run env cli [] s =
      (match cli.Usage with
      | some usage =>
        (match usage s.world with
          | Ext.ret _ w => Res.ret none ⟨w, s.trace ++ [Event.usage true]⟩
          | Ext.stop w => Res.stop ⟨w, s.trace ++ [Event.usage true]⟩)
      | none =>
        (match env.flagUsage s.world with
          | Ext.ret _ w => Res.ret none ⟨w, s.trace ++ [Event.usage false]⟩
          | Ext.stop w => Res.stop ⟨w, s.trace ++ [Event.usage false]⟩)) ∧
    Run env cli [str "help"] s =
      (match cli.handler.MethodByName (str "CmdHelp") with
      | none =>
        Res.exit 1 ⟨s.world, s.trace ++
          [Event.fprintf (cli.Stderr.getD Writer.osStderr) (noSuchCommandMsg (str "help"))]⟩
      | some fn =>
        (initStep cli.handler s).bind fun err s1 =>
          match err with
          | some e => Res.ret (some e) s1
          | none => invoke ⟨str "CmdHelp", fn⟩ [] s1) := by
  refine ⟨by simp [Run, runOne], ?_, ?_⟩
  · simp only [Run, runOne, CmdHelp, helpOne, topUsage, call, List.length_nil, gt_iff_lt,
      Nat.not_lt_zero, if_false]
    cases cli.Usage with
    | some usage => cases hu : usage s.world <;> simp [hu]
    | none => cases hu : env.flagUsage s.world <;> simp [hu]
  · have hl := lookup_help env cli.handler
    cases hm : cli.handler.MethodByName (str "CmdHelp") with
    | none =>
      rw [hm] at hl
      exact Run_of_select_none env cli (str "help") [] s (by simp [select, hl])
    | some fn =>
      rw [hm] at hl
      exact Run_of_select_some env cli [str "help"] [] s ⟨str "CmdHelp", fn⟩
        (by simp [select, hl])

end Lemmas

/-! ## Properties of the dispatcher -/

section Claims

variable {W ε : Type}

/-- C1: when the handler's initializer returns an error `E`, and the first two
arguments, or else the first argument, name a method of the handler, `Run`
returns exactly `E`; the only call it makes is the one to the initializer, so
no method is invoked, nothing is printed and the process does not exit. -/
theorem Run_returns_initializer_error (env : Env W) (cli : Cli W ε) (args : List GoString)
    (s : St W) (ini : W → Ext W (Option ε)) (E : ε) (w : W)
    (hini : cli.handler.Initialize = some ini)
    (hE : ini s.world = Ext.ret (some E) w)
    (hop : (∃ a b rest, args = a :: b :: rest ∧ (lookup env cli.handler [a, b]).isSome) ∨
      (∃ a rest, args = a :: rest ∧ (lookup env cli.handler [a]).isSome)) :
    Run env cli args s = Res.ret (some E) ⟨w, s.trace ++ [Event.init]⟩ := by
  have one : ∀ a rest, (lookup env cli.handler [a]).isSome →
      runOne env cli (a :: rest) s = Res.ret (some E) ⟨w, s.trace ++ [Event.init]⟩ := by
    intro a rest h1
    obtain ⟨m, hm⟩ := Option.isSome_iff_exists.mp h1
    simp [runOne, command_of_lookup_init env cli [a] s m ini hm hini, hE]
  have two : ∀ a b rest, (lookup env cli.handler [a, b]).isSome →
      Run env cli (a :: b :: rest) s = Res.ret (some E) ⟨w, s.trace ++ [Event.init]⟩ := by
    intro a b rest h2
    obtain ⟨m, hm⟩ := Option.isSome_iff_exists.mp h2
    simp [Run_cons_cons, command_of_lookup_init env cli [a, b] s m ini hm hini, hE]
  rcases hop with ⟨a, b, rest, rfl, h2⟩ | ⟨a, rest, rfl, h1⟩
  · exact two a b rest h2
  · cases rest with
    | nil => rw [Run_singleton]; exact one a [] h1
    | cons b rest =>
      cases h2 : lookup env cli.handler [a, b] with
      | some m => exact two a b rest (by simp [h2])
      | none =>
        obtain ⟨msg, hmsg⟩ := command_of_lookup_none env cli [a, b] s h2
        rw [Run_cons_cons, hmsg]
        simpa using one a (b :: rest) h1

/-- C1, on an example: the initializer fails, `policy list` names a method,
and `Run` returns the initializer's error after the single call to it. -/
theorem Run_returns_initializer_error_witness :
    Run demoEnv (demoCli (some failingInit)) [str "policy", str "list", str "x"] s0 =
      Res.ret (some (str "connection refused")) ⟨1000, [Event.init]⟩ :=
  Run_returns_initializer_error demoEnv (demoCli (some failingInit))
    [str "policy", str "list", str "x"] s0 failingInit (str "connection refused") 1000 rfl rfl
    (Or.inl ⟨str "policy", str "list", [str "x"], rfl, by decide⟩)

/-- C2 (as amended): for non-empty tokens `a`, `b` of ASCII letters and a
handler with a method under `"Cmd" + title(a) + title(b)`, `command` gives the
same result on every re-casing of the two tokens, and that result is never one
of the plain errors ("command not found", "empty command").  It is that
method when the handler has no initializer or its initializer returns nil, and
it is the error of the initializer wrapped in `initErr`, after the one call of
the initializer, when the initializer fails. -/
theorem command_recase_resolves (env : Env W) (cli : Cli W ε) (a b a2 b2 : GoString) (s : St W)
    (fn : List GoString → W → Ext W (Option ε))
    (ha : Alphabetic a) (hb : Alphabetic b)
    (hop : cli.handler.MethodByName (str "Cmd" ++ specTitle a ++ specTitle b) = some fn)
    (ha2 : Recase a a2) (hb2 : Recase b b2) :
    command env cli [a2, b2] s = command env cli [a, b] s ∧
    (∀ msg s1, command env cli [a2, b2] s ≠ Res.ret (Except.error (GoErr.errorString msg)) s1) ∧
    (cli.handler.Initialize = none →
      command env cli [a2, b2] s =
        Res.ret (Except.ok ⟨str "Cmd" ++ specTitle a ++ specTitle b, fn⟩) s) ∧
    (∀ ini w, cli.handler.Initialize = some ini → ini s.world = Ext.ret none w →
      command env cli [a2, b2] s =
        Res.ret (Except.ok ⟨str "Cmd" ++ specTitle a ++ specTitle b, fn⟩)
          ⟨w, s.trace ++ [Event.init]⟩) ∧
    (∀ ini E w, cli.handler.Initialize = some ini → ini s.world = Ext.ret (some E) w →
      command env cli [a2, b2] s =
        Res.ret (Except.error (GoErr.initErr E)) ⟨w, s.trace ++ [Event.init]⟩) := by
  obtain ⟨ha2l, hta⟩ := specTitle_recase a a2 ha ha2
  obtain ⟨hb2l, htb⟩ := specTitle_recase b b2 hb hb2
  have hl : lookup env cli.handler [a, b] =
      some ⟨str "Cmd" ++ specTitle a ++ specTitle b, fn⟩ := by
    rw [lookup_pair_alphabetic env cli.handler a b ha hb, hop]; rfl
  have hl2 : lookup env cli.handler [a2, b2] =
      some ⟨str "Cmd" ++ specTitle a ++ specTitle b, fn⟩ := by
    rw [lookup_pair_alphabetic env cli.handler a2 b2 ha2l hb2l, hta, htb, hop]; rfl
  have noInit : cli.handler.Initialize = none →
      command env cli [a2, b2] s =
        Res.ret (Except.ok ⟨str "Cmd" ++ specTitle a ++ specTitle b, fn⟩) s :=
    fun hi => command_of_lookup_noInit env cli [a2, b2] s _ hl2 hi
  refine ⟨?_, ?_, noInit, ?_, ?_⟩
  · cases hi : cli.handler.Initialize with
    | none =>
      rw [command_of_lookup_noInit env cli [a2, b2] s _ hl2 hi,
        command_of_lookup_noInit env cli [a, b] s _ hl hi]
    | some ini =>
      rw [command_of_lookup_init env cli [a2, b2] s _ ini hl2 hi,
        command_of_lookup_init env cli [a, b] s _ ini hl hi]
  · intro msg s1
    cases hi : cli.handler.Initialize with
    | none => rw [noInit hi]; simp
    | some ini =>
      rw [command_of_lookup_init env cli [a2, b2] s _ ini hl2 hi]
      cases ini s.world with
      | ret r w => cases r <;> simp
      | stop w => simp
  · intro ini w hi hw
    rw [command_of_lookup_init env cli [a2, b2] s _ ini hl2 hi, hw]
  · intro ini E w hi hw
    rw [command_of_lookup_init env cli [a2, b2] s _ ini hl2 hi, hw]

/-- C2, on an example: `POLICY LIST` is a re-casing of `policy list`.  With a
succeeding initializer `command` returns the method `CmdPolicyList` after the
call of the initializer; with a failing initializer it returns the wrapped
error and no method. -/
theorem command_recase_resolves_witness :
    command demoEnv (demoCli (some goodInit)) [str "POLICY", str "LIST"] s0 =
      Res.ret (Except.ok ⟨str "CmdPolicyList",
        fun args w => Ext.ret (some (str "list failed")) (w + 10 + args.length)⟩)
        ⟨1000, [Event.init]⟩ ∧
    command demoEnv (demoCli (some failingInit)) [str "POLICY", str "LIST"] s0 =
      Res.ret (Except.error (GoErr.initErr (str "connection refused"))) ⟨1000, [Event.init]⟩ :=
  ⟨(command_recase_resolves demoEnv (demoCli (some goodInit)) (str "policy") (str "list")
      (str "POLICY") (str "LIST") s0
      (fun args w => Ext.ret (some (str "list failed")) (w + 10 + args.length))
      ⟨by decide, by decide⟩ ⟨by decide, by decide⟩ rfl (by unfold Recase; decide)
      (by unfold Recase; decide)).2.2.2.1 goodInit 1000 rfl rfl,
    (command_recase_resolves demoEnv (demoCli (some failingInit)) (str "policy") (str "list")
      (str "POLICY") (str "LIST") s0
      (fun args w => Ext.ret (some (str "list failed")) (w + 10 + args.length))
      ⟨by decide, by decide⟩ ⟨by decide, by decide⟩ rfl (by unfold Recase; decide)
      (by unfold Recase; decide)).2.2.2.2 failingInit (str "connection refused") 1000 rfl rfl⟩

/-- C2 as stated fails: `policy` and `list` are non-empty tokens of ASCII
letters, the handler has the method `CmdPolicyList`, yet with a failing
initializer `command` returns the wrapped initialization error and not the
method. -/
theorem command_recase_counterexample :
    Alphabetic (str "policy") ∧ Alphabetic (str "list") ∧
    (∃ fn, (demoCli (some failingInit)).handler.MethodByName
      (str "Cmd" ++ specTitle (str "policy") ++ specTitle (str "list")) = some fn) ∧
    command demoEnv (demoCli (some failingInit)) [str "policy", str "list"] s0 =
      Res.ret (Except.error (GoErr.initErr (str "connection refused"))) ⟨1000, [Event.init]⟩ :=
  ⟨⟨by decide, by decide⟩, ⟨by decide, by decide⟩, ⟨_, rfl⟩, rfl⟩

/-- C3: on every list that contains an empty token `command` returns the error
"empty command", which is not the error "command not found", whatever the
handler is (its method table and initializer play no part) and without
touching the world or the trace. -/
theorem command_empty_token (env : Env W) (cli : Cli W ε) (args : List GoString) (s : St W)
    (h : [] ∈ args) :
    command env cli args s = Res.ret (Except.error (GoErr.errorString (str "empty command"))) s ∧
    str "empty command" ≠ str "command not found" := by
  refine ⟨?_, by decide⟩
  simp only [command, (camelArgs_eq_none_iff env args).mpr h]

/-- C3, on an example: `policy` followed by an empty token, on a handler that
has `CmdPolicy` and a failing initializer. -/
theorem command_empty_token_witness :
    command demoEnv (demoCli (some failingInit)) [str "policy", []] s0 =
      Res.ret (Except.error (GoErr.errorString (str "empty command"))) s0 :=
  (command_empty_token demoEnv (demoCli (some failingInit)) [str "policy", []] s0
    (by decide)).1

/-- C4 fails on the code.  The handler has `CmdPolicy` and `CmdPolicyList` and
no `CmdHelp`.  `Run` with no arguments reaches the Cli's own `CmdHelp`: the
top-level usage is printed and nil returned.  `Run` on `help`, and on
`help policy`, looks `CmdHelp` up on the handler only, prints that `help` is
not a daolictl command and exits with status 1, although `Cli.CmdHelp`, whose
comment gives `daolictl help COMMAND` as its usage, would serve `policy` by
calling `CmdPolicy` with `--help`. -/
theorem Run_help_not_served_by_CmdHelp :
    Run demoEnv (demoCli none) [] s0 = Res.ret none ⟨100, [Event.usage false]⟩ ∧
    Run demoEnv (demoCli none) [str "help"] s0 =
      Res.exit 1 ⟨0, [Event.fprintf Writer.osStderr
        (str "daolictl: \x27help\x27 is not a daolictl command.\nSee \x27daolictl --help\x27.\n")]⟩ ∧
    Run demoEnv (demoCli none) [str "help", str "policy"] s0 =
      Res.exit 1 ⟨0, [Event.fprintf Writer.osStderr
        (str "daolictl: \x27help\x27 is not a daolictl command.\nSee \x27daolictl --help\x27.\n")]⟩ ∧
    CmdHelp demoEnv (demoCli none) [str "policy"] s0 =
      Res.ret none ⟨1, [Event.invoke (str "CmdPolicy") [str "--help"]]⟩ ∧
    Run demoEnv (demoCli none) [] s0 ≠ Run demoEnv (demoCli none) [str "help"] s0 :=
  ⟨by decide, by decide, by decide, by decide, by decide⟩

/-- C5: when the first two arguments name a method `m` and the initialization
step, if any, succeeds and leaves state `s1`, `Run` makes exactly one more
call: `m` on the arguments after the first two.  It returns what `m` returns,
unchanged, and the method named by the first argument alone is not called,
whether or not the handler has one. -/
theorem Run_two_tokens (env : Env W) (cli : Cli W ε) (a b : GoString) (rest : List GoString)
    (s s1 : St W) (m : Method W ε)
    (hm : lookup env cli.handler [a, b] = some m)
    (hi : initStep cli.handler s = Res.ret none s1) :
    Run env cli (a :: b :: rest) s =
      (match m.fn rest s1.world with
        | Ext.ret r w => Res.ret r ⟨w, s1.trace ++ [Event.invoke m.name rest]⟩
        | Ext.stop w => Res.stop ⟨w, s1.trace ++ [Event.invoke m.name rest]⟩) ∧
    (s1.trace = s.trace ∨ s1.trace = s.trace ++ [Event.init]) := by
  constructor
  · rw [Run_of_select_some env cli (a :: b :: rest) rest s m (by simp [select, hm]), hi]
    cases hr : m.fn rest s1.world <;> simp [invoke, call, hr]
  · rcases initStep_trace cli.handler s s1 none hi with ⟨_, h⟩ | ⟨_, _, _, h⟩
    · exact Or.inl (by rw [h])
    · exact Or.inr h

/-- C5, on an example: the handler has both `CmdPolicy` and `CmdPolicyList`;
on `policy list x` the initializer runs, then `CmdPolicyList` is called once
with `x`, and its error is what `Run` returns. -/
theorem Run_two_tokens_witness :
    Run demoEnv (demoCli (some goodInit)) [str "policy", str "list", str "x"] s0 =
      Res.ret (some (str "list failed"))
        ⟨1011, [Event.init, Event.invoke (str "CmdPolicyList") [str "x"]]⟩ :=
  (Run_two_tokens demoEnv (demoCli (some goodInit)) (str "policy") (str "list") [str "x"] s0
    ⟨1000, [Event.init]⟩
    ⟨str "CmdPolicyList", fun args w => Ext.ret (some (str "list failed")) (w + 10 + args.length)⟩
    rfl rfl).1

/-- C6 (as amended): when the first two arguments name no method, the first
argument alone names a method `g`, and the initialization step, if any,
succeeds and leaves state `s1`, `Run` makes exactly one more call: `g` on all
the arguments after the first, the second token included.  It returns what
`g` returns, unchanged; nothing is printed and the process does not exit. -/
theorem Run_falls_back_to_one_token (env : Env W) (cli : Cli W ε) (a b : GoString)
    (rest : List GoString) (s s1 : St W) (g : Method W ε)
    (h2 : lookup env cli.handler [a, b] = none)
    (h1 : lookup env cli.handler [a] = some g)
    (hi : initStep cli.handler s = Res.ret none s1) :
    Run env cli (a :: b :: rest) s =
      (match g.fn (b :: rest) s1.world with
        | Ext.ret r w => Res.ret r ⟨w, s1.trace ++ [Event.invoke g.name (b :: rest)]⟩
        | Ext.stop w => Res.stop ⟨w, s1.trace ++ [Event.invoke g.name (b :: rest)]⟩) ∧
    (s1.trace = s.trace ∨ s1.trace = s.trace ++ [Event.init]) := by
  constructor
  · rw [Run_of_select_some env cli (a :: b :: rest) (b :: rest) s g (by simp [select, h2, h1]),
      hi]
    cases hr : g.fn (b :: rest) s1.world <;> simp [invoke, call, hr]
  · rcases initStep_trace cli.handler s s1 none hi with ⟨_, h⟩ | ⟨_, _, _, h⟩
    · exact Or.inl (by rw [h])
    · exact Or.inr h

/-- C6, on an example: `policy x` names no method, `policy` does; after the
initializer `CmdPolicy` is called once with `x`. -/
theorem Run_falls_back_to_one_token_witness :
    Run demoEnv (demoCli (some goodInit)) [str "policy", str "x"] s0 =
      Res.ret none ⟨1001, [Event.init, Event.invoke (str "CmdPolicy") [str "x"]]⟩ :=
  (Run_falls_back_to_one_token demoEnv (demoCli (some goodInit)) (str "policy") (str "x") [] s0
    ⟨1000, [Event.init]⟩ ⟨str "CmdPolicy", fun _ w => Ext.ret none (w + 1)⟩ rfl rfl rfl).1

/-- C6 as stated fails: `policy x` names no method and `policy` names
`CmdPolicy`, yet with a failing initializer `Run` returns the initializer's
error and `CmdPolicy` is never called. -/
theorem Run_falls_back_counterexample :
    (lookup demoEnv (demoCli (some failingInit)).handler [str "policy", str "x"]).isSome = false ∧
    (lookup demoEnv (demoCli (some failingInit)).handler [str "policy"]).isSome = true ∧
    Run demoEnv (demoCli (some failingInit)) [str "policy", str "x"] s0 =
      Res.ret (some (str "connection refused")) ⟨1000, [Event.init]⟩ :=
  ⟨by decide, by decide, by decide⟩

/-- C7: for a non-empty token `t` such that the handler has no method named
`"Cmd"` followed by the title-cased `t`, `Run` on `t` alone makes exactly one
call, the `Fprintf` of "daolictl: 't' is not a daolictl command." and the
pointer to `daolictl --help` to the error stream, and the process exits with
status 1; no method and no initializer is called. -/
theorem Run_unknown_command (env : Env W) (cli : Cli W ε) (t : GoString) (s : St W)
    (ht : t ≠ [])
    (hno : cli.handler.MethodByName
      (str "Cmd" ++ (ToUpper env (t.take 1) ++ ToLower env (t.drop 1))) = none) :
    Run env cli [t] s =
      Res.exit 1 ⟨s.world, s.trace ++ [Event.fprintf (cli.Stderr.getD Writer.osStderr)
        (str "daolictl: \x27" ++ t ++
          str "\x27 is not a daolictl command.\nSee \x27daolictl --help\x27.\n")]⟩ := by
  have hl : t.length ≠ 0 := by simpa using ht
  have hc : camelArgs env [t] = some [ToUpper env (t.take 1) ++ ToLower env (t.drop 1)] := by
    simp only [camelArgs, hl, if_false, Option.map_some']
  have h1 : lookup env cli.handler [t] = none := by
    simp only [lookup, hc, methodName, List.flatten_cons, List.flatten_nil, List.append_nil, hno,
      Option.map_none']
  exact Run_of_select_none env cli t [] s (by simp [select, h1])

/-- C7, on an example: `badcmd` on the demo handler, whose initializer would
fail if it were called. -/
theorem Run_unknown_command_witness :
    Run demoEnv (demoCli (some failingInit)) [str "badcmd"] s0 =
      Res.exit 1 ⟨0, [Event.fprintf Writer.osStderr
        (str "daolictl: \x27badcmd\x27 is not a daolictl command.\nSee \x27daolictl --help\x27.\n")]⟩ :=
  Run_unknown_command demoEnv (demoCli (some failingInit)) (str "badcmd") s0 (by decide) rfl

/-- C8: for a handler with an initializer, whenever `Run` calls a method, the
calls `Run` makes are exactly two: the initializer first, then the method; so
the initializer runs once and before the method, also when a two-token
attempt failed before the one-token attempt succeeded.  An attempt of
`command` that ends in one of its plain errors ("command not found") leaves
the state as it was: the initializer was not called.  Nothing is cached: from
any later state, `Run` on the same arguments starts by calling the initializer
again. -/
theorem Run_initializer_once_before (env : Env W) (cli : Cli W ε) (args : List GoString)
    (s : St W) (ini : W → Ext W (Option ε)) (evs : List Event)
    (hini : cli.handler.Initialize = some ini)
    (htr : (Run env cli args s).st.trace = s.trace ++ evs)
    (hinv : ∃ n xs, Event.invoke n xs ∈ evs) :
    (∃ n xs, evs = [Event.init, Event.invoke n xs]) ∧
    (∀ toks s1 s2, command env cli toks s1 =
        Res.ret (Except.error (GoErr.errorString (str "command not found"))) s2 → s2 = s1) ∧
    (∀ s2, ∃ tail, (Run env cli args s2).st.trace = s2.trace ++ Event.init :: tail) := by
  obtain ⟨n, xs, hmem⟩ := hinv
  cases hsel : select env cli.handler args with
  | none =>
    obtain ⟨ev, hev, hne⟩ := Run_trace_of_select_none env cli args s hsel
    rw [hev] at htr
    have : evs = [ev] := (List.append_cancel_left htr).symm
    subst this
    simp only [List.mem_singleton] at hmem
    exact absurd hmem.symm (hne n xs)
  | some p =>
    obtain ⟨m, rest⟩ := p
    refine ⟨?_, fun toks s1 s2 h => command_errorString_state env cli toks s1 s2 _ h, ?_⟩
    · rcases Run_trace_of_select_some env cli args rest s m ini hsel hini with h | h
      · rw [h] at htr
        have : evs = [Event.init] := (List.append_cancel_left htr).symm
        subst this
        simp at hmem
      · rw [h] at htr
        exact ⟨m.name, rest, (List.append_cancel_left htr).symm⟩
    · intro s2
      rcases Run_trace_of_select_some env cli args rest s2 m ini hsel hini with h | h
      · exact ⟨[], h⟩
      · exact ⟨[Event.invoke m.name rest], h⟩

/-- C8, on an example: on `policy x` the two-token attempt fails, the
one-token attempt resolves `CmdPolicy`; the calls are the initializer and then
`CmdPolicy`, and a second `Run` from the state the first one left calls the
initializer again. -/
theorem Run_initializer_once_before_witness :
    (Run demoEnv (demoCli (some goodInit)) [str "policy", str "x"] s0).st.trace =
      s0.trace ++ [Event.init, Event.invoke (str "CmdPolicy") [str "x"]] ∧
    ∃ tail, (Run demoEnv (demoCli (some goodInit)) [str "policy", str "x"]
        (Run demoEnv (demoCli (some goodInit)) [str "policy", str "x"] s0).st).st.trace =
      (Run demoEnv (demoCli (some goodInit)) [str "policy", str "x"] s0).st.trace ++
        Event.init :: tail :=
  ⟨by decide,
    (Run_initializer_once_before demoEnv (demoCli (some goodInit)) [str "policy", str "x"] s0
      goodInit [Event.init, Event.invoke (str "CmdPolicy") [str "x"]] rfl (by decide)
      ⟨str "CmdPolicy", [str "x"], by decide⟩).2.2 _⟩

/-- C9: when the arguments resolve to a method `f`, by their first two tokens
or else by the first, and the initialization step, if any, succeeds and leaves
state `s1`, `CmdHelp` makes exactly one more call: `f` on the single argument
`--help`, none of the caller's arguments being passed on.  Once `f` returns,
`CmdHelp` returns nil, whatever `f` returned. -/
theorem CmdHelp_invokes_with_help_flag (env : Env W) (cli : Cli W ε) (args rest : List GoString)
    (s s1 : St W) (f : Method W ε)
    (hsel : select env cli.handler args = some (f, rest))
    (hi : initStep cli.handler s = Res.ret none s1) :
    CmdHelp env cli args s =
      (match f.fn [str "--help"] s1.world with
        | Ext.ret _ w => Res.ret none ⟨w, s1.trace ++ [Event.invoke f.name [str "--help"]]⟩
        | Ext.stop w => Res.stop ⟨w, s1.trace ++ [Event.invoke f.name [str "--help"]]⟩) ∧
    (s1.trace = s.trace ∨ s1.trace = s.trace ++ [Event.init]) := by
  constructor
  · rw [CmdHelp_of_select_some env cli args rest s f hsel, hi]
    cases hr : f.fn [str "--help"] s1.world <;> simp [invoke, call, hr]
  · rcases initStep_trace cli.handler s s1 none hi with ⟨_, h⟩ | ⟨_, _, _, h⟩
    · exact Or.inl (by rw [h])
    · exact Or.inr h

/-- C9, on an example: `CmdPolicyList` returns an error, and `CmdHelp` on
`policy LIST z` calls it once with `--help` alone and returns nil. -/
theorem CmdHelp_invokes_with_help_flag_witness :
    CmdHelp demoEnv (demoCli (some goodInit)) [str "policy", str "LIST", str "z"] s0 =
      Res.ret none ⟨1011, [Event.init, Event.invoke (str "CmdPolicyList") [str "--help"]]⟩ :=
  (CmdHelp_invokes_with_help_flag demoEnv (demoCli (some goodInit))
    [str "policy", str "LIST", str "z"] [str "z"] s0 ⟨1000, [Event.init]⟩
    ⟨str "CmdPolicyList", fun args w => Ext.ret (some (str "list failed")) (w + 10 + args.length)⟩
    rfl rfl).1

/-- C10: on non-empty arguments `CmdHelp` and `Run` resolve alike.  Either
neither candidate names a method, and both print the message naming the first
argument and exit with status 1; or both select the same method (two-token
candidate first, then one-token) and run the same initialization step from
the same state: if it fails with `E` both return `E`, if it never returns
neither does, and if it succeeds both go on from the same state `s1`, `Run`
calling the method on the remaining arguments and `CmdHelp` calling it on
`--help`. -/
theorem CmdHelp_mirrors_Run (env : Env W) (cli : Cli W ε) (a : GoString) (rest : List GoString)
    (s : St W) :
    (select env cli.handler (a :: rest) = none ∧
      Run env cli (a :: rest) s = Res.exit 1 ⟨s.world, s.trace ++
        [Event.fprintf (cli.Stderr.getD Writer.osStderr) (noSuchCommandMsg a)]⟩ ∧
      CmdHelp env cli (a :: rest) s = Res.exit 1 ⟨s.world, s.trace ++
        [Event.fprintf (cli.Stderr.getD Writer.osStderr) (noSuchCommandMsg a)]⟩) ∨
    (∃ m left, select env cli.handler (a :: rest) = some (m, left) ∧
      ((∃ E s1, initStep cli.handler s = Res.ret (some E) s1 ∧
          Run env cli (a :: rest) s = Res.ret (some E) s1 ∧
          CmdHelp env cli (a :: rest) s = Res.ret (some E) s1) ∨
        (∃ s1, initStep cli.handler s = Res.stop s1 ∧
          Run env cli (a :: rest) s = Res.stop s1 ∧
          CmdHelp env cli (a :: rest) s = Res.stop s1) ∨
        (∃ s1, initStep cli.handler s = Res.ret none s1 ∧
          Run env cli (a :: rest) s = invoke m left s1 ∧
          CmdHelp env cli (a :: rest) s =
            (invoke m [str "--help"] s1).bind fun _ s2 => Res.ret none s2))) := by
  cases hsel : select env cli.handler (a :: rest) with
  | none =>
    exact Or.inl ⟨rfl, Run_of_select_none env cli a rest s hsel,
      CmdHelp_of_select_none env cli a rest s hsel⟩
  | some p =>
    obtain ⟨m, left⟩ := p
    refine Or.inr ⟨m, left, rfl, ?_⟩
    rw [Run_of_select_some env cli (a :: rest) left s m hsel,
      CmdHelp_of_select_some env cli (a :: rest) left s m hsel]
    cases hi : initStep cli.handler s with
    | ret r s1 =>
      cases r with
      | some E => exact Or.inl ⟨E, s1, rfl, rfl, rfl⟩
      | none => exact Or.inr (Or.inr ⟨s1, rfl, rfl, rfl⟩)
    | exit c s1 => exact absurd hi (initStep_ne_exit cli.handler s s1 c)
    | stop s1 => exact Or.inr (Or.inl ⟨s1, rfl, rfl, rfl⟩)

/-- C11: for a non-empty list of synopses the text the usage callback of
`Subcmd` prints before the flag defaults is, for each synopsis in order, a
newline, the lead (`Usage:` and a tab for the first, a tab for the others),
`daolictl `, the command name and, when the synopsis is not empty, one space
and the synopsis; then two newlines, the description and a newline.  An empty
list of synopses prints what the list holding one empty synopsis prints: the
bare usage line ending in the command name. -/
theorem Subcmd_usage_text (name s0 : GoString) (ss : List GoString) (description : GoString)
    (exitOnError : Bool) :
    stdoutText (Subcmd name (s0 :: ss) description exitOnError).Usage =
      specUsageText name (s0 :: ss) description ∧
    stdoutText (Subcmd name [] description exitOnError).Usage =
      stdoutText (Subcmd name [[]] description exitOnError).Usage ∧
    stdoutText (Subcmd name [] description exitOnError).Usage =
      str "\nUsage:\tdaolictl " ++ name ++ str "\n\n" ++ description ++ str "\n" := by
  refine ⟨stdoutText_Subcmd_cons name s0 ss description exitOnError, rfl, ?_⟩
  have e : str "\nUsage:\tdaolictl " = str "\n" ++ str "Usage:\t" ++ str "daolictl " := by decide
  have h : stdoutText (Subcmd name [] description exitOnError).Usage =
      stdoutText (Subcmd name [[]] description exitOnError).Usage := rfl
  rw [h, stdoutText_Subcmd_cons, e]
  simp [specUsageText, specUsageLine, List.enum]

/-- C12: for a command name `n`, a non-empty synopsis `s` and a description
`d`, the text the usage callback of `Subcmd` on `n`, the one synopsis `s` and
`d` prints is a newline, `Usage:`, a tab and `daolictl `, then `n`, a space,
`s`, two newlines, `d` and a newline: the four substrings occur in that order
without overlap. -/
theorem Subcmd_usage_contains (n s d : GoString) (exitOnError : Bool) (hs : s ≠ []) :
    stdoutText (Subcmd n [s] d exitOnError).Usage =
      str "\n" ++ str "Usage:" ++ str "\tdaolictl " ++ n ++ str " " ++ s ++ str "\n\n" ++ d ++
        str "\n" := by
  have e : str "\n" ++ str "Usage:" ++ str "\tdaolictl " =
      str "\n" ++ str "Usage:\t" ++ str "daolictl " := by decide
  rw [stdoutText_Subcmd_cons, e]
  simp [specUsageText, specUsageLine, List.enum, hs]

/-- C12, on the example of the specification: name `policy create`, synopsis
`CONTAINER:CONTAINER`, description `Creates a policy`. -/
theorem Subcmd_usage_contains_witness :
    stdoutText (Subcmd (str "policy create") [str "CONTAINER:CONTAINER"]
        (str "Creates a policy") false).Usage =
      str "\n" ++ str "Usage:" ++ str "\tdaolictl " ++ str "policy create" ++ str " " ++
        str "CONTAINER:CONTAINER" ++ str "\n\n" ++ str "Creates a policy" ++ str "\n" :=
  Subcmd_usage_contains (str "policy create") (str "CONTAINER:CONTAINER")
    (str "Creates a policy") false (by decide)

/-- C13: for lists `xs` and `ys` of non-empty tokens of ASCII letters,
`command` builds the same capability name for both only if they have the same
number of tokens and agree token by token up to letter case; and whenever
`command` returns a method for each, the two methods have the same name only
in that case. -/
theorem command_token_boundaries (env : Env W) (cli : Cli W ε) (xs ys : List GoString)
    (hx : ∀ t ∈ xs, Alphabetic t) (hy : ∀ t ∈ ys, Alphabetic t) :
    (capabilityName env xs = capabilityName env ys →
      xs.length = ys.length ∧ List.Forall₂ Recase xs ys) ∧
    (∀ (s1 s2 t1 t2 : St W) (mx my : Method W ε),
      command env cli xs s1 = Res.ret (Except.ok mx) t1 →
      command env cli ys s2 = Res.ret (Except.ok my) t2 →
      mx.name = my.name → xs.length = ys.length ∧ List.Forall₂ Recase xs ys) := by
  refine ⟨recase_of_capabilityName_eq env xs ys hx hy, ?_⟩
  intro s1 s2 t1 t2 mx my h1 h2 hn
  apply recase_of_capabilityName_eq env xs ys hx hy
  rw [capabilityName_of_command env cli xs s1 t1 mx h1,
    capabilityName_of_command env cli ys s2 t2 my h2, hn]

/-- C13, on the examples of the claim: `policy list` and `policylist` do not
get the same capability name, and neither do `policy list` and
`poli cylist`. -/
theorem command_token_boundaries_witness :
    capabilityName demoEnv [str "policy", str "list"] ≠
      capabilityName demoEnv [str "policylist"] ∧
    capabilityName demoEnv [str "policy", str "list"] ≠
      capabilityName demoEnv [str "poli", str "cylist"] :=
  ⟨fun h => absurd ((command_token_boundaries demoEnv (demoCli none)
      [str "policy", str "list"] [str "policylist"] (by decide) (by decide)).1 h).1 (by decide),
    fun h => by
      have h2 := ((command_token_boundaries demoEnv (demoCli none)
        [str "policy", str "list"] [str "poli", str "cylist"] (by decide) (by decide)).1 h).2
      cases h2 with
      | cons hr _ => exact absurd hr (by unfold Recase; decide)⟩

/-- C14: `CmdHelp` with no arguments makes exactly one call, to `cli.Usage`
when that is set and to `flag.Usage` otherwise, and returns nil once that call
returns; no method of the handler and no initializer is called. -/
theorem CmdHelp_no_arguments (env : Env W) (cli : Cli W ε) (s : St W) :
    CmdHelp env cli [] s =
      match cli.Usage with
      | some usage =>
        (match usage s.world with
          | Ext.ret _ w => Res.ret none ⟨w, s.trace ++ [Event.usage true]⟩
          | Ext.stop w => Res.stop ⟨w, s.trace ++ [Event.usage true]⟩)
      | none =>
        (match env.flagUsage s.world with
          | Ext.ret _ w => Res.ret none ⟨w, s.trace ++ [Event.usage false]⟩
          | Ext.stop w => Res.stop ⟨w, s.trace ++ [Event.usage false]⟩) := by
  simp only [CmdHelp, helpOne, topUsage, call, List.length_nil, gt_iff_lt, Nat.not_lt_zero,
    if_false]
  cases cli.Usage with
  | some usage => cases hu : usage s.world <;> simp [hu]
  | none => cases hu : env.flagUsage s.world <;> simp [hu]

/-- C15 fails on the code: whatever the wrapped error and however deep the
calls may go, `Error` on `initErr` does not return; each call is a call of
itself. -/
theorem initErr_Error_never_returns (fuel : Nat) (e : ε) :
    initErr.Error fuel (⟨e⟩ : initErr ε) = none := by
  induction fuel with
  | zero => rfl
  | succ n ih => simpa [initErr.Error] using ih

/-- C16 (as amended): an empty token is treated like a name that is not
found.  For every handler, when the first argument is empty, `Run` makes one
call, the `Fprintf` of the message naming the empty token, and the process
exits with status 1: no method and no initializer is called.  When the second
argument is empty, the first names a method `g` and the initialization step,
if any, succeeds and leaves state `s1`, `Run` makes exactly one more call:
`g` on all the arguments after the first, the empty token included; the error
"empty command" is not what `Run` returns. -/
theorem Run_empty_token (env : Env W) (cli : Cli W ε) :
    (∀ (rest : List GoString) (s : St W), Run env cli ([] :: rest) s =
      Res.exit 1 ⟨s.world, s.trace ++ [Event.fprintf (cli.Stderr.getD Writer.osStderr)
        (str "daolictl: \x27\x27 is not a daolictl command.\nSee \x27daolictl --help\x27.\n")]⟩) ∧
    (∀ (t : GoString) (rest : List GoString) (s s1 : St W) (g : Method W ε),
      lookup env cli.handler [t] = some g →
      initStep cli.handler s = Res.ret none s1 →
      Run env cli (t :: [] :: rest) s =
        (match g.fn ([] :: rest) s1.world with
          | Ext.ret r w => Res.ret r ⟨w, s1.trace ++ [Event.invoke g.name ([] :: rest)]⟩
          | Ext.stop w => Res.stop ⟨w, s1.trace ++ [Event.invoke g.name ([] :: rest)]⟩) ∧
      (s1.trace = s.trace ∨ s1.trace = s.trace ++ [Event.init])) := by
  refine ⟨?_, ?_⟩
  · intro rest s
    have e0 : lookup env cli.handler [([] : GoString)] = none := by
      simp [lookup, camelArgs]
    have hsel : select env cli.handler ([] :: rest) = none := by
      cases rest with
      | nil => simp [select, e0]
      | cons b tl =>
        have e2 : lookup env cli.handler [([] : GoString), b] = none := by
          simp [lookup, camelArgs]
        simp [select, e0, e2]
    rw [Run_of_select_none env cli [] rest s hsel]
    have em : noSuchCommandMsg [] =
        str "daolictl: \x27\x27 is not a daolictl command.\nSee \x27daolictl --help\x27.\n" := by
      decide
    rw [em]
  · intro t rest s s1 g h1 hi
    refine ⟨?_, ?_⟩
    · have e2 : lookup env cli.handler [t, ([] : GoString)] = none := by
        have hc : camelArgs env [t, ([] : GoString)] = none :=
          (camelArgs_eq_none_iff env [t, []]).mpr (by simp)
        simp [lookup, hc]
      rw [Run_of_select_some env cli (t :: [] :: rest) ([] :: rest) s g
        (by simp [select, e2, h1]), hi]
      cases hr : g.fn ([] :: rest) s1.world <;> simp [invoke, call, hr]
    · rcases initStep_trace cli.handler s s1 none hi with ⟨_, h⟩ | ⟨_, _, _, h⟩
      · exact Or.inl (by rw [h])
      · exact Or.inr h

/-- C16, on examples: an empty first token followed by `policy`, on a handler
whose initializer would fail, ends in the message naming the empty token and
exit status 1 with nothing else called; and on `policy` followed by an empty
token, with a succeeding initializer, `CmdPolicy` is called with the empty
token as its argument. -/
theorem Run_empty_token_witness :
    Run demoEnv (demoCli (some failingInit)) [[], str "policy"] s0 =
      Res.exit 1 ⟨0, [Event.fprintf Writer.osStderr
        (str "daolictl: \x27\x27 is not a daolictl command.\nSee \x27daolictl --help\x27.\n")]⟩ ∧
    Run demoEnv (demoCli (some goodInit)) [str "policy", []] s0 =
      Res.ret none ⟨1001, [Event.init, Event.invoke (str "CmdPolicy") [[]]]⟩ :=
  ⟨(Run_empty_token demoEnv (demoCli (some failingInit))).1 [str "policy"] s0,
    ((Run_empty_token demoEnv (demoCli (some goodInit))).2 (str "policy") [] s0
      ⟨1000, [Event.init]⟩ ⟨str "CmdPolicy", fun _ w => Ext.ret none (w + 1)⟩ rfl rfl).1⟩

/-- C16 as stated fails: `policy` names `CmdPolicy` and the second token is
empty, yet with a failing initializer `Run` returns the initializer's error
and `CmdPolicy` is never called. -/
theorem Run_empty_token_counterexample :
    (lookup demoEnv (demoCli (some failingInit)).handler [str "policy"]).isSome = true ∧
    Run demoEnv (demoCli (some failingInit)) [str "policy", []] s0 =
      Res.ret (some (str "connection refused")) ⟨1000, [Event.init]⟩ :=
  ⟨by decide, by decide⟩

end Claims

end Daolictl
